import Mathlib

/-!
Verification of the Taproot / Schnorr / payment-template core of a Bitcoin
transaction-construction library.  The development shallowly embeds the
JavaScript/TypeScript sources (`ts_src/schnorrBip340.ts`, `ts_src/taproot.ts`,
`ts_src/payments/p2ns.ts`): `Buffer`s become `List Nat` of byte values,
JavaScript numbers become `Nat`/`Int`, thrown exceptions become `Except`
values, and the in-place sort performed by MuSig key aggregation is made
explicit by returning the final state of the caller's array.

External collaborators that the repository consumes but whose sources are not
part of it (the script codec, the variable-length integer codec, and the
accelerated curve-arithmetic provider `tiny-secp256k1`) are modelled from the
specification's description of their interfaces; each such definition carries
a doc comment starting with `Modelled from the spec:`.
-/

/-- A byte buffer: a list of byte values (each `< 256` for real buffers). -/
abbrev Bytes := List Nat

/-- Big-endian interpretation of a buffer as a natural number
(JS `new BN(buffer)`). -/
def fromBytes (b : Bytes) : Nat :=
  b.foldl (fun acc x => acc * 256 + x) 0

/-- 32-byte big-endian encoding of a natural number
(JS `bn.toArrayLike(Buffer, 'be', 32)`; all encoded values in the sources are
`< 2^256`). -/
def natToBytes32 (v : Nat) : Bytes :=
  (List.range 32).map (fun i => v / 256 ^ (31 - i) % 256)


/-- Lexicographic byte comparison, the semantics of node's `Buffer.compare`:
compare byte-wise, and if one buffer is a prefix of the other the shorter one
is smaller. -/
def bufCompare : Bytes → Bytes → Ordering
  | [], [] => .eq
  | [], _ :: _ => .lt
  | _ :: _, [] => .gt
  | a :: as, b :: bs =>
    if a < b then .lt else if b < a then .gt else bufCompare as bs

/-- `Buffer.compare a b ≤ 0`, as a boolean: the "`a` comes no later than `b`"
relation used by `Array.prototype.sort(Buffer.compare)`. -/
def bufLeB (a b : Bytes) : Bool :=
  bufCompare a b != Ordering.gt

/-- The propositional version of `bufLeB`. -/
def bufLe (a b : Bytes) : Prop := bufLeB a b = true








/-- `Array.prototype.sort(Buffer.compare)`: sorts into ascending
lexicographic byte order (stable, like V8's TimSort). -/
def sortBuffers (l : List Bytes) : List Bytes :=
  l.mergeSort bufLeB




/-! ### SHA-256

A from-scratch executable SHA-256, used by both copies of `taggedHash` in the
sources (`schnorrBip340.ts` recomputes the tag hash each call,
`taproot.ts` caches it; the spec notes the cache is unobservable, and both
compute the same function). -/

/-- Truncate to a 32-bit word. -/
def w32 (n : Nat) : Nat := n % 4294967296

/-- 32-bit rotate right. -/
def rotr (k n : Nat) : Nat := w32 ((n >>> k) ||| (n <<< (32 - k)))

def shaCh (x y z : Nat) : Nat := (x &&& y) ^^^ ((x ^^^ 4294967295) &&& z)

def shaMaj (x y z : Nat) : Nat := (x &&& y) ^^^ (x &&& z) ^^^ (y &&& z)

def shaBigSigma0 (x : Nat) : Nat := rotr 2 x ^^^ rotr 13 x ^^^ rotr 22 x

def shaBigSigma1 (x : Nat) : Nat := rotr 6 x ^^^ rotr 11 x ^^^ rotr 25 x

def shaSmallSigma0 (x : Nat) : Nat := rotr 7 x ^^^ rotr 18 x ^^^ (x >>> 3)

def shaSmallSigma1 (x : Nat) : Nat := rotr 17 x ^^^ rotr 19 x ^^^ (x >>> 10)

/-- The 64 SHA-256 round constants (fractional parts of the cube roots of
the first 64 primes), in decimal. -/
def shaK : List Nat :=
  [1116352408, 1899447441, 3049323471, 3921009573, 961987163,
   1508970993, 2453635748, 2870763221, 3624381080, 310598401,
   607225278, 1426881987, 1925078388, 2162078206, 2614888103,
   3248222580, 3835390401, 4022224774, 264347078, 604807628,
   770255983, 1249150122, 1555081692, 1996064986, 2554220882,
   2821834349, 2952996808, 3210313671, 3336571891, 3584528711,
   113926993, 338241895, 666307205, 773529912, 1294757372,
   1396182291, 1695183700, 1986661051, 2177026350, 2456956037,
   2730485921, 2820302411, 3259730800, 3345764771, 3516065817,
   3600352804, 4094571909, 275423344, 430227734, 506948616,
   659060556, 883997877, 958139571, 1322822218, 1537002063,
   1747873779, 1955562222, 2024104815, 2227730452, 2361852424,
   2428436474, 2756734187, 3204031479, 3329325298]

/-- The SHA-256 initial hash state, in decimal. -/
def shaH0 : List Nat :=
  [1779033703, 3144134277, 1013904242, 2773480762, 1359893119,
   2600822924, 528734635, 1541459225]

/-- Group a byte list into big-endian 32-bit words (length must be a multiple
of 4; trailing bytes that cannot fill a word are dropped). -/
def bytesToWords : Bytes → List Nat
  | a :: b :: c :: d :: rest => (((a * 256 + b) * 256 + c) * 256 + d) :: bytesToWords rest
  | _ => []

/-- Split a byte list into 64-byte chunks (fuel-based for kernel
reducibility). -/
def chunks64Aux : Nat → Bytes → List Bytes
  | 0, _ => []
  | fuel + 1, l => if l.isEmpty then [] else l.take 64 :: chunks64Aux fuel (l.drop 64)

def chunks64 (l : Bytes) : List Bytes := chunks64Aux (l.length + 1) l

/-- SHA-256 padding: append `0x80`, zeros, and the 64-bit big-endian bit
length, reaching a multiple of 64 bytes. -/
def shaPad (msg : Bytes) : Bytes :=
  let bitLen := msg.length * 8
  let zeros := (64 + 55 - msg.length % 64) % 64
  msg ++ [0x80] ++ List.replicate zeros 0 ++
    (List.range 8).map (fun i => bitLen / 256 ^ (7 - i) % 256)

/-- SHA-256 message schedule: extend 16 words to 64 words. -/
def shaSchedule (block : List Nat) : Array Nat :=
  (List.range 48).foldl
    (fun arr _ =>
      let i := arr.size
      arr.push (w32 (shaSmallSigma1 (arr.getD (i - 2) 0) + arr.getD (i - 7) 0 +
                     shaSmallSigma0 (arr.getD (i - 15) 0) + arr.getD (i - 16) 0)))
    (List.toArray block)

structure ShaState where
  a : Nat
  b : Nat
  c : Nat
  d : Nat
  e : Nat
  f : Nat
  g : Nat
  h : Nat

def shaRound (st : ShaState) (kw : Nat × Nat) : ShaState :=
  let t1 := w32 (st.h + shaBigSigma1 st.e + shaCh st.e st.f st.g + kw.1 + kw.2)
  let t2 := w32 (shaBigSigma0 st.a + shaMaj st.a st.b st.c)
  { a := w32 (t1 + t2), b := st.a, c := st.b, d := st.c,
    e := w32 (st.d + t1), f := st.e, g := st.f, h := st.g }

def shaCompress (hs : List Nat) (block : List Nat) : List Nat :=
  let ws := shaSchedule block
  let init : ShaState :=
    { a := hs.getD 0 0, b := hs.getD 1 0, c := hs.getD 2 0, d := hs.getD 3 0,
      e := hs.getD 4 0, f := hs.getD 5 0, g := hs.getD 6 0, h := hs.getD 7 0 }
  let fin := (shaK.zip ws.toList).foldl shaRound init
  [w32 (hs.getD 0 0 + fin.a), w32 (hs.getD 1 0 + fin.b),
   w32 (hs.getD 2 0 + fin.c), w32 (hs.getD 3 0 + fin.d),
   w32 (hs.getD 4 0 + fin.e), w32 (hs.getD 5 0 + fin.f),
   w32 (hs.getD 6 0 + fin.g), w32 (hs.getD 7 0 + fin.h)]

def wordsToBytes (ws : List Nat) : Bytes :=
  ws.flatMap (fun word =>
    [word / 16777216 % 256, word / 65536 % 256, word / 256 % 256, word % 256])

/-- SHA-256 of a byte buffer (`crypto.createHash('sha256')`). -/
def sha256 (msg : Bytes) : Bytes :=
  wordsToBytes
    (((chunks64 (shaPad msg)).map bytesToWords).foldl shaCompress shaH0)

/-! ### Tagged hashes

`taggedHash(tag, data) = SHA256(SHA256(tag) ‖ SHA256(tag) ‖ data)`.  The tag
strings of the sources are embedded as their ASCII byte sequences. -/

/-- ASCII bytes of the tag string used at each `taggedHash` call site. -/
def tagTapLeaf : Bytes := [84, 97, 112, 76, 101, 97, 102]

/-- ASCII of the TapBranch tag. -/
def tagTapBranch : Bytes := [84, 97, 112, 66, 114, 97, 110, 99, 104]

/-- ASCII of the TapTweak tag. -/
def tagTapTweak : Bytes := [84, 97, 112, 84, 119, 101, 97, 107]

/-- ASCII of the KeyAgg list tag. -/
def tagKeyAggList : Bytes := [75, 101, 121, 65, 103, 103, 32, 108, 105, 115, 116]

/-- ASCII of the KeyAgg coefficient tag. -/
def tagKeyAggCoefficient : Bytes :=
  [75, 101, 121, 65, 103, 103, 32, 99, 111, 101, 102, 102, 105, 99, 105, 101, 110, 116]

/-- ASCII of the BIP0340 aux tag. -/
def tagBIP0340Aux : Bytes := [66, 73, 80, 48, 51, 52, 48, 47, 97, 117, 120]

/-- ASCII of the BIP0340 nonce tag. -/
def tagBIP0340Nonce : Bytes := [66, 73, 80, 48, 51, 52, 48, 47, 110, 111, 110, 99, 101]

/-- ASCII of the BIP0340 challenge tag. -/
def tagBIP0340Challenge : Bytes :=
  [66, 73, 80, 48, 51, 52, 48, 47, 99, 104, 97, 108, 108, 101, 110, 103, 101]

/-- `taggedHash` as implemented in both `schnorrBip340.ts` (recomputing the
tag prefix) and `taproot.ts` (caching `SHA256(tag) ‖ SHA256(tag)` per tag;
the cache is unobservable, both copies compute the same function). -/
def taggedHash (tag msg : Bytes) : Bytes :=
  sha256 (sha256 tag ++ sha256 tag ++ msg)

/-! ### JavaScript exceptions

Each constructor stands for one thrown error of the sources (TypeError,
assert failure, or crash), named after its message text. -/

inductive JsErr where
  | expectedHash              -- 'Expected Hash'
  | expectedPrivate           -- 'Expected Private'
  | expectedSignature         -- 'Expected Signature'
  | expectedPoint             -- 'Expected Point'
  | expectedExtraData         -- 'Expected Extra Data (32 bytes)'
  | invalidPubkey             -- 'invalid pubkey' (decodeXOnlyPoint)
  | invalidPoint              -- 'invalid point' (elliptic pointFromX, x not on curve)
  | k0IsZero                  -- 'Failure (k0===0). ...'
  | rAtInfinity               -- 'R at Infinity'
  | createdSigDoesNotVerify   -- 'The created signature does not pass verification.'
  | nullDeref                 -- JS crash: property access on null/undefined
  | atLeastTwoPubkeys         -- assert 'at least two pubkeys are required for musig key aggregation'
  | atLeastOneScript          -- assert 'at least one script is required to construct a tap tree'
  | scriptWeightMustBePositive -- assert 'script weight must be a positive value'
  | tapscriptInvalid          -- 'tapscript is not a valid script'
  | invalidControlBlockLength -- 'invalid control block length'
  | internalPubkeyNotPoint    -- 'internal pubkey is not an EC point'
  | invalidLeafVersion        -- 'invalid leaf version'
  | expectedBuffer            -- typeforce 'Expected Buffer' (decompile of undefined)
  | expectedTweak             -- tiny-secp256k1 'Expected Tweak' (scalar out of range)
  | pointAtInfinityResult     -- tiny-secp256k1 returning null / crash on infinity result
  | notEnoughData             -- 'Not enough data'
  | wrongArgumentTypes        -- typeforce rejection of the p2ns argument object
  | outputInvalid             -- 'Output is invalid'
  | pubkeysMismatch           -- 'Pubkeys mismatch'
  | notEnoughSignatures       -- 'Not enough signatures provided'
  | tooManySignatures         -- 'Too many signatures provided'
  | inputInvalidSignatures    -- 'Input has invalid signature(s)'
  | signatureMismatch         -- 'Signature mismatch'
  | signatureCountMismatch    -- 'Signature count mismatch'
  | decompileFailed           -- crash path: bscript.decompile returned null
  deriving DecidableEq, Repr

/-! ### secp256k1 arithmetic

The Schnorr engine carries its own curve implementation (the `elliptic`
package); here it is embedded as affine arithmetic over the prime field,
with fuel-based modular exponentiation and scalar multiplication so every
definition kernel-reduces on concrete inputs. -/

/-- The field prime `EC_P`. -/
def fieldP : Nat :=
  0xfffffffffffffffffffffffffffffffffffffffffffffffffffffffefffffc2f

/-- The group order `EC_GROUP_ORDER` (= `n` of the curve). -/
def nOrder : Nat :=
  0xfffffffffffffffffffffffffffffffebaaedce6af48a03bbfd25e8cd0364141

/-- An elliptic-curve point: `none` is the point at infinity. -/
abbrev ECPoint := Option (Nat × Nat)

def powModAux : Nat → Nat → Nat → Nat → Nat
  | 0, _, _, _ => 1
  | fuel + 1, b, e, m =>
    if e = 0 then 1 % m
    else
      let r := powModAux fuel (b * b % m) (e / 2) m
      if e % 2 = 1 then r * b % m else r

/-- `b ^ e mod m` (fuel 300 covers every exponent `< 2^300`; all exponents in
the sources are below `2^256`). -/
def powMod (b e m : Nat) : Nat := powModAux 300 (b % m) e m

/-- Inverse in the field, via Fermat's little theorem. -/
def invMod (a : Nat) : Nat := powMod a (fieldP - 2) fieldP

def fAdd (a b : Nat) : Nat := (a + b) % fieldP
def fSub (a b : Nat) : Nat := (a % fieldP + fieldP - b % fieldP) % fieldP
def fMul (a b : Nat) : Nat := a * b % fieldP

def pointDouble : ECPoint → ECPoint
  | none => none
  | some (x, y) =>
    if y % fieldP = 0 then none
    else
      let l := fMul (fMul 3 (fMul x x)) (invMod (fMul 2 y))
      let x3 := fSub (fMul l l) (fAdd x x)
      some (x3, fSub (fMul l (fSub x x3)) y)

def pointAdd : ECPoint → ECPoint → ECPoint
  | none, q => q
  | some (x1, y1), none => some (x1, y1)
  | some (x1, y1), some (x2, y2) =>
    if x1 % fieldP = x2 % fieldP then
      if (y1 + y2) % fieldP = 0 then none
      else pointDouble (some (x1, y1))
    else
      let l := fMul (fSub y2 y1) (invMod (fSub x2 x1))
      let x3 := fSub (fSub (fMul l l) x1) x2
      some (x3, fSub (fMul l (fSub x1 x3)) y1)

def pointMulAux : Nat → Nat → ECPoint → ECPoint → ECPoint
  | 0, _, _, acc => acc
  | fuel + 1, k, p, acc =>
    if k = 0 then acc
    else
      pointMulAux fuel (k / 2) (pointDouble p)
        (if k % 2 = 1 then pointAdd acc p else acc)

/-- Scalar multiplication `k·P` by binary double-and-add (fuel 300 covers
every scalar `< 2^300`; all scalars in the sources are below `2^256`). -/
def pointMul (k : Nat) (p : ECPoint) : ECPoint := pointMulAux 300 k p none

/-- The secp256k1 base point `G`. -/
def secpG : ECPoint :=
  some (0x79be667ef9dcbbac55a06295ce870b07029bfcdb2dce28d959f2815b16f81798,
        0x483ada7726a3c4655da4fbfc0e1108a8fd17b448a68554199c47d08ffb10d4b8)

/-! ### Schnorr signature engine (`ts_src/schnorrBip340.ts`) -/

/-- `isScalar`: a 32-byte buffer. -/
def isScalar (x : Bytes) : Bool := x.length == 32

/-- `isPrivate`: 32 bytes with `0 < x < GROUP_ORDER` (the source compares
byte-wise against `ZERO32` and `EC_GROUP_ORDER`; for equal-length buffers
that is exactly numeric comparison). -/
def isPrivate (x : Bytes) : Bool :=
  isScalar x && decide (0 < fromBytes x) && decide (fromBytes x < nOrder)

/-- `hasEvenY`: not infinity and even y coordinate. -/
def hasEvenY : ECPoint → Bool
  | none => false
  | some (_, y) => y % 2 == 0

/-- `decodeXOnlyPoint`: reject non-32-byte or `≥ EC_P` input, then lift to
the even-y point (elliptic's `pointFromX(x, odd = false)`: square root by
`(p+1)/4` power, 'invalid point' if `x` is not on the curve, negate if the
root has the wrong parity). -/
def decodeXOnlyPoint (bytes : Bytes) : Except JsErr (Nat × Nat) :=
  if bytes.length ≠ 32 then .error .invalidPubkey
  else if fromBytes bytes ≥ fieldP then .error .invalidPubkey
  else
    let x := fromBytes bytes
    let y2 := (x * x * x + 7) % fieldP
    let y0 := powMod y2 ((fieldP + 1) / 4) fieldP
    if y0 * y0 % fieldP ≠ y2 then .error .invalidPoint
    else .ok (x, if y0 % 2 = 1 then fieldP - y0 else y0)

/-- `encodeXOnlyPoint`: the 32-byte x coordinate; on the point at infinity
elliptic's `getX()` crashes on a null coordinate. -/
def encodeXOnlyPoint : ECPoint → Except JsErr Bytes
  | none => .error .nullDeref
  | some (x, _) => .ok (natToBytes32 x)

/-- `isXOnlyPoint`: `decodeXOnlyPoint` wrapped in try/catch. -/
def isXOnlyPoint (x : Bytes) : Bool := (decodeXOnlyPoint x).isOk

/-- `isSignature`: 64 bytes whose halves are `< GROUP_ORDER` (byte-wise
comparison against `EC_GROUP_ORDER`, numerically equivalent). -/
def isSignature (value : Bytes) : Bool :=
  value.length == 64 &&
    decide (fromBytes (value.take 32) < nOrder) &&
    decide (fromBytes (value.drop 32) < nOrder)

/-- `verifySchnorr(hash, q, signature)`: throws `TypeError` on a malformed
hash, pubkey or signature; on well-formed input computes
`R = s·G + (n−e)·P` and accepts iff `R` is finite with even y and
`R.x = r`. -/
def verifySchnorr (hash q signature : Bytes) : Except JsErr Bool :=
  if ¬ isScalar hash then .error .expectedHash
  else if ¬ isXOnlyPoint q then .error .expectedPoint
  else if ¬ isSignature signature then .error .expectedSignature
  else
    match decodeXOnlyPoint q with
    | .error e => .error e
    | .ok p =>
      let r := fromBytes (signature.take 32)
      let s := fromBytes (signature.drop 32)
      let e := fromBytes
        (taggedHash tagBIP0340Challenge (signature.take 32 ++ q ++ hash)) % nOrder
      let bigR := pointAdd (pointMul s secpG) (pointMul (nOrder - e) (some p))
      .ok (match bigR with
           | none => false
           | some (x, y) => (y % 2 == 0) && (x == r))

/-- The base nonce input `t = dd XOR taggedHash('BIP0340/aux', extraData)`
(line `const t = dd.xor(fromBuffer(taggedHash('BIP0340/aux', extraData)))`
of `__signSchnorr`). -/
def schnorrBaseNonce (dd : Nat) (extraData : Bytes) : Nat :=
  dd ^^^ fromBytes (taggedHash tagBIP0340Aux extraData)

/-- Sign normalization (lines `const P = G.mul(dd); dd = hasEvenY(P) ? dd :
n.sub(dd)`): negate the scalar when its public point has odd y. -/
def signNormalizedScalar (dd0 : Nat) : Nat :=
  if hasEvenY (pointMul dd0 secpG) then dd0 else nOrder - dd0

/-- `__signSchnorr(hash, d, extraData)` of `ts_src/schnorrBip340.ts`. -/
def __signSchnorr (hash d extraData : Bytes) : Except JsErr Bytes :=
  if ¬ isScalar hash then .error .expectedHash
  else if ¬ isPrivate d then .error .expectedPrivate
  else if ¬ (extraData.length = 32) then .error .expectedExtraData
  else
    let dd0 := fromBytes d
    let bigP := pointMul dd0 secpG
    let dd := if hasEvenY bigP then dd0 else nOrder - dd0
    let t := schnorrBaseNonce dd extraData
    match encodeXOnlyPoint bigP with
    | .error e => .error e
    | .ok px =>
      let k0 := fromBytes
        (taggedHash tagBIP0340Nonce (natToBytes32 t ++ px ++ hash))
      if k0 = 0 then .error .k0IsZero
      else
        let bigR := pointMul k0 secpG
        if bigR.isNone then .error .rAtInfinity
        else
          -- `n.sub(k0)` on BN values; `k0 < n` in every reachable case (a
          -- 256-bit tagged-hash output `≥ n` has probability `< 2^-128`), so
          -- truncated Nat subtraction agrees with BN here.
          let k := if hasEvenY bigR then k0 else nOrder - k0
          match encodeXOnlyPoint bigR with
          | .error e => .error e
          | .ok rx =>
            let e := fromBytes
              (taggedHash tagBIP0340Challenge (rx ++ px ++ hash)) % nOrder
            let sig := rx ++ natToBytes32 ((k + e * dd) % nOrder)
            match verifySchnorr hash px sig with
            | .error er => .error er
            | .ok false => .error .createdSigDoesNotVerify
            | .ok true => .ok sig

/-- `signSchnorr(hash, d)`: `__signSchnorr` with a 32-byte zero buffer as
extra data (`Buffer.alloc(32)`). -/
def signSchnorr (hash d : Bytes) : Except JsErr Bytes :=
  __signSchnorr hash d (List.replicate 32 0)

/-- `signSchnorrWithEntropy(hash, d, auxRand)`. -/
def signSchnorrWithEntropy (hash d auxRand : Bytes) : Except JsErr Bytes :=
  __signSchnorr hash d auxRand


/-! ### External curve-arithmetic provider (`tiny-secp256k1`)

`taproot.ts` and `p2ns.ts` consume `tiny-secp256k1`, whose source is not part
of this repository; the operations are modelled from the spec's description
of the provider (point validity test, scalar-point multiply, point add,
x-only lift-and-add-scalar) over the same curve arithmetic as above. -/

/-- Modelled from the spec: the provider's point validity test (`ecc.isPoint`)
on the 33-byte compressed encoding: prefix `0x02`/`0x03`, `0 < x < p`, and a
point with that x exists on the curve. -/
def eccIsPoint (pk : Bytes) : Bool :=
  pk.length == 33 && (pk.headD 0 == 2 || pk.headD 0 == 3) &&
    (let x := fromBytes (pk.drop 1)
     let y2 := (x * x * x + 7) % fieldP
     let y0 := powMod y2 ((fieldP + 1) / 4) fieldP
     decide (0 < x) && decide (x < fieldP) && y0 * y0 % fieldP == y2)

/-- Modelled from the spec: decode a 33-byte compressed point, choosing the
root whose parity matches the prefix byte. -/
def eccDecodePoint (pk : Bytes) : Except JsErr (Nat × Nat) :=
  if ¬ eccIsPoint pk then .error .expectedPoint
  else
    let x := fromBytes (pk.drop 1)
    let y2 := (x * x * x + 7) % fieldP
    let y0 := powMod y2 ((fieldP + 1) / 4) fieldP
    let wantOdd := pk.headD 0 == 3
    .ok (x, if (decide (y0 % 2 = 1)) == wantOdd then y0 else fieldP - y0)

/-- Modelled from the spec: compressed encoding of a finite point. -/
def eccEncodePoint (pt : Nat × Nat) : Bytes :=
  (if pt.2 % 2 = 0 then 2 else 3) :: natToBytes32 pt.1

/-- Modelled from the spec: `ecc.pointMultiply(p, c)` — scalar-point multiply;
rejects an out-of-range scalar, fails (returns null, which crashes the
caller) when the result is the point at infinity. -/
def eccPointMultiply (pk c : Bytes) : Except JsErr Bytes :=
  match eccDecodePoint pk with
  | .error e => .error e
  | .ok pt =>
    if c.length ≠ 32 ∨ fromBytes c ≥ nOrder then .error .expectedTweak
    else
      match pointMul (fromBytes c) (some pt) with
      | none => .error .pointAtInfinityResult
      | some q => .ok (eccEncodePoint q)

/-- Modelled from the spec: `ecc.pointAdd(a, b)` — point addition; fails on a
point-at-infinity result. -/
def eccPointAdd (a b : Bytes) : Except JsErr Bytes :=
  match eccDecodePoint a, eccDecodePoint b with
  | .error e, _ => .error e
  | _, .error e => .error e
  | .ok pa, .ok pb =>
    match pointAdd (some pa) (some pb) with
    | none => .error .pointAtInfinityResult
    | some q => .ok (eccEncodePoint q)

/-- Modelled from the spec: `ecc.pointAddScalar(p, tweak)` — `P + tweak·G`;
fails if the tweak scalar is `≥ GROUP_ORDER` or the result is the point at
infinity. -/
def eccPointAddScalar (pk tweak : Bytes) : Except JsErr Bytes :=
  match eccDecodePoint pk with
  | .error e => .error e
  | .ok pt =>
    if tweak.length ≠ 32 ∨ fromBytes tweak ≥ nOrder then .error .expectedTweak
    else
      match pointAdd (some pt) (pointMul (fromBytes tweak) secpG) with
      | none => .error .pointAtInfinityResult
      | some q => .ok (eccEncodePoint q)

/-! ### Script codec (external collaborator)

`bscript.compile`/`bscript.decompile` convert between script bytes and a
sequence of chunks (opcode numbers or pushed byte-strings).  Modelled from
the spec: the standard Bitcoin script encoding with canonical minimal
pushes, round-trip stable for canonical encodings. -/

/-- A decompiled script element: an opcode number or a pushed byte-string. -/
inductive Chunk where
  | op (code : Nat)
  | data (bytes : Bytes)
  deriving DecidableEq, Repr

def OP_0 : Nat := 0
def OP_PUSHDATA1 : Nat := 76
def OP_PUSHDATA2 : Nat := 77
def OP_PUSHDATA4 : Nat := 78
def OP_1NEGATE : Nat := 79
def OP_INT_BASE : Nat := 80
def OP_CHECKSIG : Nat := 172
def OP_CHECKSIGVERIFY : Nat := 173

/-- Modelled from the spec: minimal-opcode form of a pushed buffer (empty
buffer, single byte 1–16, or single byte 0x81). -/
def asMinimalOP (d : Bytes) : Option Nat :=
  if d.isEmpty then some OP_0
  else if d.length = 1 ∧ 1 ≤ d.headD 0 ∧ d.headD 0 ≤ 16 then
    some (OP_INT_BASE + d.headD 0)
  else if d.length = 1 ∧ d.headD 0 = 0x81 then some OP_1NEGATE
  else none

/-- Modelled from the spec: minimal push-length prefix for a data push. -/
def pushPrefix (len : Nat) : Bytes :=
  if len < OP_PUSHDATA1 then [len]
  else if len ≤ 0xff then [OP_PUSHDATA1, len]
  else if len ≤ 0xffff then [OP_PUSHDATA2, len % 256, len / 256 % 256]
  else [OP_PUSHDATA4, len % 256, len / 256 % 256,
        len / 65536 % 256, len / 16777216 % 256]

/-- Modelled from the spec: `bscript.compile` — serialize chunks, converting
minimal-op-representable buffers to their opcode. -/
def compile (chunks : List Chunk) : Bytes :=
  chunks.flatMap (fun c =>
    match c with
    | .op code => [code]
    | .data d =>
      match asMinimalOP d with
      | some code => [code]
      | none => pushPrefix d.length ++ d)

/-- Modelled from the spec: read the push length following a push opcode;
`none` when the buffer is too short. -/
def readPushLen (opcode : Nat) (rest : Bytes) : Option (Nat × Bytes) :=
  if opcode < OP_PUSHDATA1 then some (opcode, rest)
  else if opcode = OP_PUSHDATA1 then
    match rest with
    | b :: r => some (b, r)
    | [] => none
  else if opcode = OP_PUSHDATA2 then
    match rest with
    | b0 :: b1 :: r => some (b0 + 256 * b1, r)
    | _ => none
  else
    match rest with
    | b0 :: b1 :: b2 :: b3 :: r =>
      some (b0 + 256 * b1 + 65536 * b2 + 16777216 * b3, r)
    | _ => none

def decompileAux : Nat → Bytes → List Chunk → Option (List Chunk)
  | 0, _, _ => none
  | _ + 1, [], acc => some acc.reverse
  | fuel + 1, opcode :: rest, acc =>
    if 1 ≤ opcode ∧ opcode ≤ OP_PUSHDATA4 then
      match readPushLen opcode rest with
      | none => none
      | some (dlen, r) =>
        if r.length < dlen then none
        else
          let d := r.take dlen
          let chunk := match asMinimalOP d with
            | some code => Chunk.op code
            | none => Chunk.data d
          decompileAux fuel (r.drop dlen) (chunk :: acc)
    else decompileAux fuel rest (Chunk.op opcode :: acc)

/-- Modelled from the spec: `bscript.decompile` — parse script bytes into
chunks; `null` on a malformed script (truncated push). -/
def decompile (buffer : Bytes) : Option (List Chunk) :=
  decompileAux (buffer.length + 1) buffer []

/-! ### Variable-length integer codec (external collaborator) -/

/-- Modelled from the spec: Bitcoin-style variable-length integer encoding
of a non-negative length (`varuint.encode`). -/
def varuintEncode (n : Nat) : Bytes :=
  if n < 0xfd then [n]
  else if n ≤ 0xffff then [0xfd, n % 256, n / 256 % 256]
  else if n ≤ 0xffffffff then
    [0xfe, n % 256, n / 256 % 256, n / 65536 % 256, n / 16777216 % 256]
  else
    [0xff] ++ (List.range 8).map (fun i => n / 256 ^ i % 256)

/-! ### Taproot engine (`ts_src/taproot.ts`) -/

/-- `serializeScriptSize`. -/
def serializeScriptSize (script : Bytes) : Bytes := varuintEncode script.length

/-- `INITIAL_TAPSCRIPT_VERSION` = `0xc0`. -/
def INITIAL_TAPSCRIPT_VERSION : Nat := 0xc0

/-- `hashTapLeaf(script)`. -/
def hashTapLeaf (script : Bytes) : Bytes :=
  taggedHash tagTapLeaf
    ([INITIAL_TAPSCRIPT_VERSION] ++ serializeScriptSize script ++ script)

/-- `hashTapBranch(child1, child2)`: children sorted lexicographically
(`[child1, child2].sort(Buffer.compare)`) before hashing. -/
def hashTapBranch (child1 child2 : Bytes) : Bytes :=
  taggedHash tagTapBranch
    (if bufLeB child1 child2 then child1 ++ child2 else child2 ++ child1)

structure TweakedPubkey where
  parity : Nat
  pubkey : Bytes
  deriving DecidableEq, Repr

/-- `tapTweakPubkey(pubkey, tapTreeRoot?)`. -/
def tapTweakPubkey (pubkey : Bytes) (tapTreeRoot : Option Bytes) :
    Except JsErr TweakedPubkey :=
  let tapTweak := match tapTreeRoot with
    | some root => taggedHash tagTapTweak (pubkey ++ root)
    | none => taggedHash tagTapTweak pubkey
  match eccPointAddScalar (2 :: pubkey) tapTweak with
  | .error e => .error e
  | .ok tweaked =>
    .ok ⟨if tweaked.headD 0 = 2 then 0 else 1, tweaked.drop 1⟩

/-- `getControlBlock(parity, pubkey, path)`. -/
def getControlBlock (parity : Nat) (pubkey : Bytes) (path : List Bytes) : Bytes :=
  (INITIAL_TAPSCRIPT_VERSION + parity) :: (pubkey ++ path.flatten)

/-- `removeAnnex(witnessStack)`: drop the last element when the stack has at
least two elements and the last element's first byte is the annex marker
`0x50`. -/
def removeAnnex (witnessStack : List Bytes) : List Bytes :=
  if 2 ≤ witnessStack.length ∧ (witnessStack.getLast?.getD []).head? = some 0x50
  then witnessStack.dropLast
  else witnessStack

structure ParsedTaprootWitness where
  tapscript : Bytes
  controlBlock : Bytes
  taptreeDepth : Nat
  internalPubkey : Bytes
  leafVersion : Nat
  deriving DecidableEq, Repr

/-- `parseTaprootWitness(witnessStack)`: the structural parser; raises a
distinct error for each BIP341 violation.  (On a stack with fewer than two
elements the JS indexes read `undefined` and `bscript.decompile` throws a
typeforce error.) -/
def parseTaprootWitness (witnessStack : List Bytes) :
    Except JsErr ParsedTaprootWitness :=
  if witnessStack.length < 2 then .error .expectedBuffer
  else
    let tapscript := witnessStack.getD (witnessStack.length - 2) []
    match decompile tapscript with
    | none => .error .tapscriptInvalid
    | some chunks =>
      if chunks.length = 0 then .error .tapscriptInvalid
      else
        let controlBlock := witnessStack.getD (witnessStack.length - 1) []
        if controlBlock.length < 33 ∨ 33 + 32 * 128 < controlBlock.length ∨
           controlBlock.length % 32 ≠ 1 then .error .invalidControlBlockLength
        else
          let taptreeDepth := controlBlock.length / 32 - 1
          let internalPubkey := (controlBlock.drop 1).take 32
          if ¬ eccIsPoint (2 :: internalPubkey) then
            .error .internalPubkeyNotPoint
          else
            let leafVersion := controlBlock.headD 0 &&& 0xfe
            if leafVersion = 0x50 then .error .invalidLeafVersion
            else .ok ⟨tapscript, controlBlock, taptreeDepth, internalPubkey,
                      leafVersion⟩

/-- `isValidTapscript(witnessStack, witnessProgram)`: parses the witness
(propagating its errors), recomputes the leaf hash, walks the sibling path,
tweaks the internal key and compares to the witness program. -/
def isValidTapscript (witnessStack : List Bytes) (witnessProgram : Bytes) :
    Except JsErr Bool :=
  match parseTaprootWitness witnessStack with
  | .error e => .error e
  | .ok pw =>
    let tapleafHash := taggedHash tagTapLeaf
      ([pw.leafVersion] ++ serializeScriptSize pw.tapscript ++ pw.tapscript)
    let rootHash := (List.range pw.taptreeDepth).foldl
      (fun cur j =>
        let sib := (pw.controlBlock.drop (33 + 32 * j)).take 32
        if bufCompare cur sib = .lt
        then taggedHash tagTapBranch (cur ++ sib)
        else taggedHash tagTapBranch (sib ++ cur))
      tapleafHash
    let tapTweak := taggedHash tagTapTweak (pw.internalPubkey ++ rootHash)
    match eccPointAddScalar (2 :: pw.internalPubkey) tapTweak with
    | .error e => .error e
    | .ok taprootPubkey => .ok (witnessProgram == taprootPubkey.drop 1)

/-- `isScriptPathSpend(chunks)`: `parseTaprootWitness` wrapped in
try/catch. -/
def isScriptPathSpend (chunks : List Bytes) : Bool :=
  (parseTaprootWitness chunks).isOk

/-- The body of `aggregateMuSigPubkeys` run on the (already sorted) key list:
`L = taggedHash('KeyAgg list', concat(pubkeys))`; every key except the one at
index 1 is scaled by its KeyAgg coefficient; the scaled points are summed by
`reduce(pointAdd)` and the x coordinate of the sum returned (`.slice(1)`). -/
def aggregateSorted (sorted : List Bytes) : Except JsErr Bytes :=
  let bigL := taggedHash tagKeyAggList sorted.flatten
  let tweaked : Except JsErr (List Bytes) :=
    sorted.enum.mapM (fun iPk =>
      let xyPubkey := 2 :: iPk.2
      if iPk.1 = 1 then pure xyPubkey
      else eccPointMultiply xyPubkey
        (taggedHash tagKeyAggCoefficient (bigL ++ iPk.2)))
  match tweaked with
  | .error e => .error e
  | .ok [] => .error .expectedPoint
  | .ok (t0 :: rest) =>
    match rest.foldlM eccPointAdd t0 with
    | .error e => .error e
    | .ok agg => .ok (agg.drop 1)

/-- `aggregateMuSigPubkeys(pubkeys)`, with the in-place
`pubkeys.sort(Buffer.compare)` made explicit: the second component of the
result is the contents of the caller's array after the call (unchanged when
the length assertion throws first). -/
def aggregateMuSigPubkeysST (pubkeys : List Bytes) :
    Except JsErr Bytes × List Bytes :=
  if pubkeys.length ≤ 1 then (.error .atLeastTwoPubkeys, pubkeys)
  else
    let sorted := sortBuffers pubkeys
    (aggregateSorted sorted, sorted)

/-- The return value of `aggregateMuSigPubkeys` alone. -/
def aggregateMuSigPubkeys (pubkeys : List Bytes) : Except JsErr Bytes :=
  (aggregateMuSigPubkeysST pubkeys).1

/-! ### Weighted Huffman taptree construction (`getHuffmanTaptree`)

The priority queue is the `fastpriorityqueue` package (array-backed binary
min-heap); its `add`/`poll` with comparator `a.weight < b.weight` are
embedded verbatim over a `List`, with fuel for the percolation loops. -/

structure WeightedTapScript where
  taggedHash : Bytes
  weight : Int
  paths : List (Nat × List Bytes)
  deriving Repr

/-- The queue's comparator: `(a, b) => a.weight < b.weight`. -/
def huffCmp (a b : WeightedTapScript) : Bool := a.weight < b.weight

/-- `fastpriorityqueue`'s bubble-up loop inside `add` (place `v`, sliding
ancestors down while the comparator prefers `v`). -/
def bubbleUp (cmp : WeightedTapScript → WeightedTapScript → Bool) :
    Nat → List WeightedTapScript → Nat → WeightedTapScript →
    List WeightedTapScript
  | 0, heap, i, v => heap.set i v
  | fuel + 1, heap, i, v =>
    if i = 0 then heap.set i v
    else
      let p := (i - 1) / 2
      let ap := heap.getD p v
      if cmp v ap then bubbleUp cmp fuel (heap.set i ap) p v
      else heap.set i v

/-- `queue.add(v)`. -/
def heapAdd (cmp : WeightedTapScript → WeightedTapScript → Bool)
    (heap : List WeightedTapScript) (v : WeightedTapScript) :
    List WeightedTapScript :=
  bubbleUp cmp heap.length (heap ++ [v]) heap.length v

/-- `fastpriorityqueue`'s `_percolateDown` (sink `v` from position `i`,
pulling up the preferred child at each level). -/
def sinkDown (cmp : WeightedTapScript → WeightedTapScript → Bool) :
    Nat → List WeightedTapScript → Nat → WeightedTapScript →
    List WeightedTapScript
  | 0, heap, i, v => heap.set i v
  | fuel + 1, heap, i, v =>
    let size := heap.length
    if i < size / 2 then
      let l := 2 * i + 1
      let r := l + 1
      let cL := heap.getD l v
      let pick := if r < size ∧ cmp (heap.getD r v) cL = true
        then (r, heap.getD r v) else (l, cL)
      if cmp pick.2 v then sinkDown cmp fuel (heap.set i pick.2) pick.1 v
      else heap.set i v
    else heap.set i v

/-- `queue.poll()`: return the root; move the last element to the root and
percolate it down. -/
def heapPoll (cmp : WeightedTapScript → WeightedTapScript → Bool)
    (heap : List WeightedTapScript) :
    Option WeightedTapScript × List WeightedTapScript :=
  match heap with
  | [] => (none, [])
  | root :: rest =>
    if 0 < rest.length then
      let last := heap.getLastD root
      (some root,
       sinkDown cmp heap.length ((heap.take (heap.length - 1)).set 0 last) 0 last)
    else (some root, [])

/-- Merge of the two children's `paths` objects
(`{ ...child1.paths, ...child2.paths }`: integer keys iterate in ascending
order; both operands are kept ascending and keys never collide). -/
def mergePathsAux : Nat → List (Nat × List Bytes) → List (Nat × List Bytes) →
    List (Nat × List Bytes)
  | 0, a, b => a ++ b
  | fuel + 1, a, b =>
    match a, b with
    | [], bs => bs
    | as_, [] => as_
    | (k1, v1) :: r1, (k2, v2) :: r2 =>
      if k1 < k2 then (k1, v1) :: mergePathsAux fuel r1 ((k2, v2) :: r2)
      else if k2 < k1 then (k2, v2) :: mergePathsAux fuel ((k1, v1) :: r1) r2
      else (k2, v2) :: mergePathsAux fuel r1 r2

def mergePaths (a b : List (Nat × List Bytes)) : List (Nat × List Bytes) :=
  mergePathsAux (a.length + b.length) a b

/-- One iteration of the `while (queue.size > 1)` loop: poll the two
lowest-weight entries, append each other's hash to every carried path, push
the merged branch entry. -/
def huffStep (cmp : WeightedTapScript → WeightedTapScript → Bool)
    (heap : List WeightedTapScript) : List WeightedTapScript :=
  match heapPoll cmp heap with
  | (some child1, h1) =>
    match heapPoll cmp h1 with
    | (some child2, h2) =>
      let paths1 := child1.paths.map (fun ip => (ip.1, ip.2 ++ [child2.taggedHash]))
      let paths2 := child2.paths.map (fun ip => (ip.1, ip.2 ++ [child1.taggedHash]))
      heapAdd cmp h2
        ⟨hashTapBranch child1.taggedHash child2.taggedHash,
         child1.weight + child2.weight,
         mergePaths paths1 paths2⟩
    | (none, _) => heap
  | (none, _) => heap

def huffLoop (cmp : WeightedTapScript → WeightedTapScript → Bool) :
    Nat → List WeightedTapScript → List WeightedTapScript
  | 0, heap => heap
  | fuel + 1, heap =>
    if 1 < heap.length then huffLoop cmp fuel (huffStep cmp heap) else heap

/-- The `scripts.forEach` of `getHuffmanTaptree`: default the weight with
`weights[index] || 1` (so an explicit `0` is falsy and becomes `1`), assert
it is positive, and add the leaf entry. -/
def buildQueue (weights : List (Option Int)) :
    List Bytes → Nat → List WeightedTapScript →
    Except JsErr (List WeightedTapScript)
  | [], _, heap => .ok heap
  | script :: rest, index, heap =>
    let weight : Int := match weights.getD index none with
      | some w => if w = 0 then 1 else w
      | none => 1
    if weight ≤ 0 then .error .scriptWeightMustBePositive
    else
      buildQueue weights rest (index + 1)
        (heapAdd huffCmp heap ⟨hashTapLeaf script, weight, [(index, [])]⟩)

structure Taptree where
  root : Bytes
  paths : List (List Bytes)
  deriving Repr

/-- `getHuffmanTaptree(scripts, weights)`. -/
def getHuffmanTaptree (scripts : List Bytes) (weights : List (Option Int)) :
    Except JsErr Taptree :=
  if scripts.length = 0 then .error .atLeastOneScript
  else
    match buildQueue weights scripts 0 [] with
    | .error e => .error e
    | .ok queue =>
      let finalQueue := huffLoop huffCmp queue.length queue
      match heapPoll huffCmp finalQueue with
      | (none, _) => .error .nullDeref
      | (some rootNode, _) =>
        .ok ⟨rootNode.taggedHash,
             (List.range scripts.length).map
               (fun i => (rootNode.paths.lookup i).getD [])⟩


/-! ### Payment template `p2ns` (`ts_src/payments/p2ns.ts`)

The Payment record's mutually-derived fields are lazily computed and
memoized in the source; since a field is computed at most once and from
immutable inputs, the embedding computes every derivable field eagerly.
The `name` template label (`p2ns(n)`) is represented by the key count `n`. -/

structure PaymentArgs where
  output : Option Bytes := none
  pubkeys : Option (List Bytes) := none
  signatures : Option (List Chunk) := none
  input : Option Bytes := none
  deriving Repr

structure PaymentOpts where
  validate : Bool := true
  allowIncomplete : Option Bool := none
  deriving Repr

/-- The `Object.assign({ validate: true }, opts || {})` default. -/
def defaultOpts : PaymentOpts := {}

/-- Modelled from the spec: `bscript.isCanonicalSchnorrSignature` — the
injected acceptability predicate; the data model fixes a signature at
64 bytes. -/
def isCanonicalSchnorrSignature (b : Bytes) : Bool := b.length == 64

/-- `isAcceptableSignature(x)`: in JS,
`isCanonicalSchnorrSignature(x) || (opts.allowIncomplete && x === OPS.OP_0) !== undefined`.
When `allowIncomplete` is absent the second disjunct is
`undefined !== undefined`, i.e. `false`; when it is present (whether `true`
or `false`) the conjunction evaluates to a boolean, and any boolean
`!== undefined` is `true`. -/
def isAcceptableSignature (opts : PaymentOpts) (x : Chunk) : Bool :=
  (match x with
   | .data b => isCanonicalSchnorrSignature b
   | .op _ => false) || opts.allowIncomplete.isSome

/-- `typef.Number(x)`: whether a decompiled chunk is an opcode number. -/
def isNumberChunk (c : Option Chunk) : Bool :=
  match c with
  | some (Chunk.op _) => true
  | _ => false

/-- Even-indexed chunks: `chunks.filter((_, index) => index % 2 === 0)`. -/
def evenChunks (chunks : List Chunk) : List Chunk :=
  chunks.enum.filterMap (fun ic => if ic.1 % 2 = 0 then some ic.2 else none)

def isPointChunk (c : Chunk) : Bool :=
  match c with
  | .data b => eccIsPoint b
  | .op _ => false

/-- The `output` lazy prop derived from `pubkeys`: each key followed by
`OP_CHECKSIGVERIFY`, the last by `OP_CHECKSIG`, compiled. -/
def p2nsDerivedOutput (pks : List Bytes) : Bytes :=
  compile (pks.enum.flatMap (fun ipk =>
    [Chunk.data ipk.2,
     Chunk.op (if ipk.1 ≠ pks.length - 1 then OP_CHECKSIGVERIFY else OP_CHECKSIG)]))

/-- `o.n` as read inside the validation block: `a.pubkeys.length` when
pubkeys were supplied, else the decoded key count when an output is present,
else undefined. -/
def p2nsNVal (a : PaymentArgs) : Option Nat :=
  match a.pubkeys with
  | some pks => some pks.length
  | none =>
    match a.output with
    | some out => (decompile out).map (fun chunks => (evenChunks chunks).length)
    | none => none

/-- The extended-validation block of `p2ns` (run only when
`opts.validate`). -/
def p2nsValidate (a : PaymentArgs) (opts : PaymentOpts) : Except JsErr Unit :=
  (match a.output with
   | none => .ok ()
   | some out =>
     match decompile out with
     | none => .error .decompileFailed
     | some chunks =>
       let oPubkeys := evenChunks chunks
       if ¬ isNumberChunk chunks.head? then .error .outputInvalid
       else if chunks.getLast? ≠ some (Chunk.op OP_CHECKSIG) then
         .error .outputInvalid
       else if 16 < oPubkeys.length ∨ 2 * oPubkeys.length ≠ chunks.length then
         .error .outputInvalid
       else if ¬ oPubkeys.all isPointChunk then .error .outputInvalid
       else
         match a.pubkeys with
         | some pks =>
           if pks.map Chunk.data ≠ oPubkeys then .error .pubkeysMismatch
           else .ok ()
         | none => .ok ()) >>= fun _ =>
  (match a.signatures with
   | none => .ok ()
   | some sigs =>
     match p2nsNVal a with
     | some nv =>
       if sigs.length < nv then .error .notEnoughSignatures
       else if nv < sigs.length then .error .tooManySignatures
       else .ok ()
     | none => .ok ()) >>= fun _ =>
  (match a.input with
   | none => .ok ()
   | some inp =>
     match decompile inp with
     | none => .error .decompileFailed
     | some oSigs =>
       if oSigs.length = 0 ∨ ¬ oSigs.all (isAcceptableSignature opts) then
         .error .inputInvalidSignatures
       else
         match a.signatures with
         | some sigs =>
           if sigs ≠ oSigs then .error .signatureMismatch
           else if p2nsNVal a ≠ some sigs.length then
             .error .signatureCountMismatch
           else .ok ()
         | none => .error .nullDeref)

/-- The typeforce check `pubkeys: maybe(arrayOf(ecc.isPoint))`. -/
def typeforcePubkeysOk (a : PaymentArgs) : Bool :=
  match a.pubkeys with
  | some pks => pks.all eccIsPoint
  | none => true

/-- The typeforce check `signatures: maybe(arrayOf(isAcceptableSignature))`. -/
def typeforceSignaturesOk (a : PaymentArgs) (opts : PaymentOpts) : Bool :=
  match a.signatures with
  | some sigs => sigs.all (isAcceptableSignature opts)
  | none => true

structure Payment where
  output : Option Bytes
  pubkeys : Option (List Chunk)
  signatures : Option (List Chunk)
  input : Option Bytes
  n : Option Nat
  witness : Option (List Bytes)
  deriving Repr

/-- `p2ns(a, opts)`. -/
def p2ns (a : PaymentArgs) (opts : PaymentOpts) : Except JsErr Payment :=
  if a.input = none ∧ a.output = none ∧ a.pubkeys = none ∧ a.signatures = none
  then .error .notEnoughData
  else if ¬ typeforcePubkeysOk a then .error .wrongArgumentTypes
  else if ¬ typeforceSignaturesOk a opts then .error .wrongArgumentTypes
  else
    match (if opts.validate then p2nsValidate a opts else .ok ()) with
    | .error e => .error e
    | .ok _ =>
      .ok { output := match a.output with
              | some o => some o
              | none => a.pubkeys.map p2nsDerivedOutput
          , pubkeys := match a.pubkeys with
              | some pks => some (pks.map Chunk.data)
              | none => a.output.bind (fun out => (decompile out).map evenChunks)
          , signatures := match a.signatures with
              | some s => some s
              | none => a.input.bind decompile
          , input := match a.input with
              | some i => some i
              | none => a.signatures.map compile
          , n := p2nsNVal a
          , witness :=
              if a.input.isSome ∨ a.signatures.isSome then some [] else none }

/-- The compressed encodings of `1·G`, `2·G`, `3·G`: three distinct valid
curve points used as concrete inputs. -/
def pubkeyG1 : Bytes :=
  2 :: natToBytes32 0x79be667ef9dcbbac55a06295ce870b07029bfcdb2dce28d959f2815b16f81798

/-- The compressed encoding of `2·G`. -/
def pubkeyG2 : Bytes :=
  2 :: natToBytes32 0xc6047f9441ed7d6d3045406e95c07cd85c778e4b8cef3ca7abac09b95c709ee5

/-- The compressed encoding of `3·G`. -/
def pubkeyG3 : Bytes :=
  2 :: natToBytes32 0xf9308a019258c31049344f85f89d5229b531c845836f99b08601f113bce036f9

/-- The x-only (32-byte) encodings of `1·G` and `2·G`. -/
def xOnlyG1 : Bytes :=
  natToBytes32 0x79be667ef9dcbbac55a06295ce870b07029bfcdb2dce28d959f2815b16f81798

/-- The x-only encoding of `2·G`. -/
def xOnlyG2 : Bytes :=
  natToBytes32 0xc6047f9441ed7d6d3045406e95c07cd85c778e4b8cef3ca7abac09b95c709ee5

/-- The concrete pubkey list of the round-trip scenario. -/
def c7RoundtripKeys : List Bytes := [pubkeyG1, pubkeyG2, pubkeyG3]

/-- The round trip of the payment-derivation consistency property:
construct a Payment from three pubkeys (validation on), read its derived
`output`, construct a fresh Payment from that `output` alone (default
options), and read back `pubkeys`. -/
def c7Roundtrip : Except JsErr (List Chunk) :=
  match p2ns { pubkeys := some c7RoundtripKeys } defaultOpts with
  | .error e => .error e
  | .ok p1 =>
    match p1.output with
    | none => .error .nullDeref
    | some o =>
      match p2ns { output := some o } defaultOpts with
      | .error e => .error e
      | .ok p2 =>
        match p2.pubkeys with
        | none => .error .nullDeref
        | some pks => .ok pks

/-! ## Theorems -/

theorem bufCompare_eq_iff : ∀ a b : Bytes, bufCompare a b = .eq ↔ a = b := by
  intro a
  induction a with
  | nil => intro b; cases b <;> simp [bufCompare]
  | cons x as ih =>
    intro b
    cases b with
    | nil => simp [bufCompare]
    | cons y bs =>
      by_cases h1 : x < y
      · simp [bufCompare, h1]
        omega
      · by_cases h2 : y < x
        · simp [bufCompare, h1, h2]
          omega
        · have hxy : x = y := by omega
          simp [bufCompare, h1, h2, hxy, ih bs]

theorem bufCompare_swap : ∀ a b : Bytes,
    bufCompare b a = (bufCompare a b).swap := by
  intro a
  induction a with
  | nil => intro b; cases b <;> simp [bufCompare, Ordering.swap]
  | cons x as ih =>
    intro b
    cases b with
    | nil => simp [bufCompare, Ordering.swap]
    | cons y bs =>
      by_cases h1 : x < y
      · have h2 : ¬ y < x := by omega
        simp [bufCompare, h1, h2, Ordering.swap]
      · by_cases h2 : y < x
        · simp [bufCompare, h1, h2, Ordering.swap]
        · simp [bufCompare, h1, h2, ih bs]

theorem bufLe_iff (a b : Bytes) : bufLe a b ↔ bufCompare a b ≠ Ordering.gt := by
  unfold bufLe bufLeB
  cases h : bufCompare a b <;> simp [h] <;> decide

theorem bufLe_total (a b : Bytes) : bufLeB a b || bufLeB b a := by
  unfold bufLeB
  rw [bufCompare_swap a b]
  cases bufCompare a b <;> decide

theorem bufLe_antisymm {a b : Bytes} (h1 : bufLe a b) (h2 : bufLe b a) :
    a = b := by
  rw [bufLe_iff] at h1 h2
  rw [bufCompare_swap a b] at h2
  rcases hc : bufCompare a b with _ | _ | _
  · rw [hc] at h2; exact absurd rfl h2
  · exact (bufCompare_eq_iff a b).mp hc
  · rw [hc] at h1; exact absurd rfl h1

theorem bufCompare_le_trans :
    ∀ a b c : Bytes, bufCompare a b ≠ Ordering.gt →
      bufCompare b c ≠ Ordering.gt → bufCompare a c ≠ Ordering.gt := by
  intro a
  induction a with
  | nil =>
    intro b c _ _
    cases c <;> simp [bufCompare]
  | cons x as ih =>
    intro b c hab hbc
    cases b with
    | nil => simp [bufCompare] at hab
    | cons y bs =>
      cases c with
      | nil => simp [bufCompare] at hbc
      | cons z cs =>
        simp only [bufCompare] at *
        by_cases hxy : x < y
        · by_cases hyz : y < z
          · have hxz : x < z := by omega
            simp [hxz]
          · by_cases hzy : z < y
            · simp [hyz, hzy] at hbc
            · have hxz : x < z := by omega
              simp [hxz]
        · by_cases hyx : y < x
          · simp [hxy, hyx] at hab
          · have hxy' : x = y := by omega
            subst hxy'
            by_cases hyz : x < z
            · simp [hyz]
            · by_cases hzy : z < x
              · simp [hyz, hzy] at hbc
              · simp [hxy, hyx] at hab
                simp [hyz, hzy] at hbc ⊢
                exact ih bs cs hab hbc

theorem bufLe_trans (a b c : Bytes) (h1 : bufLe a b) (h2 : bufLe b c) :
    bufLe a c := by
  rw [bufLe_iff] at *
  exact bufCompare_le_trans a b c h1 h2

theorem sortBuffers_perm (l : List Bytes) : List.Perm (sortBuffers l) l :=
  List.mergeSort_perm l bufLeB

theorem sortBuffers_sorted (l : List Bytes) :
    List.Sorted bufLe (sortBuffers l) := by
  have h := @List.sorted_mergeSort Bytes bufLeB
    (fun a b c h1 h2 => bufLe_trans a b c h1 h2)
    (fun a b => bufLe_total a b) l
  exact h

theorem sortBuffers_eq_of_perm {l₁ l₂ : List Bytes} (h : List.Perm l₁ l₂) :
    sortBuffers l₁ = sortBuffers l₂ := by
  haveI : IsAntisymm Bytes bufLe := ⟨fun _ _ => bufLe_antisymm⟩
  exact List.eq_of_perm_of_sorted
    (((sortBuffers_perm l₁).trans h).trans (sortBuffers_perm l₂).symm)
    (sortBuffers_sorted l₁) (sortBuffers_sorted l₂)



/-- C2 (counterexample): `verifySchnorr` does not return `false` on a
malformed public key — it throws `TypeError('Expected Point')`: with a valid
32-byte hash, an empty pubkey buffer and a 64-byte zero signature, the
result is an error, not a boolean. -/
theorem verifySchnorr_throws_counterexample :
    verifySchnorr (List.replicate 32 0) [] (List.replicate 64 0) =
      .error .expectedPoint := by rfl

/-- C2 (amended): `verifySchnorr` returns a boolean exactly when the hash is
32 bytes, the pubkey is a valid x-only point and the signature is a
well-formed 64-byte signature; on any malformed input it throws (a
`TypeError`) instead of returning `false`. -/
theorem verifySchnorr_never_throws_iff (hash q sig : Bytes) :
    (verifySchnorr hash q sig).isOk =
      (isScalar hash && isXOnlyPoint q && isSignature sig) := by
  cases h1 : isScalar hash with
  | false => simp [verifySchnorr, h1, Except.isOk, Except.toBool]
  | true =>
    cases h2 : isXOnlyPoint q with
    | false => simp [verifySchnorr, h1, h2, Except.isOk, Except.toBool]
    | true =>
      cases h3 : isSignature sig with
      | false => simp [verifySchnorr, h1, h2, h3, Except.isOk, Except.toBool]
      | true =>
        cases hd : decodeXOnlyPoint q with
        | error e =>
          exfalso
          unfold isXOnlyPoint at h2
          rw [hd] at h2
          simp [Except.isOk, Except.toBool] at h2
        | ok p =>
          simp [verifySchnorr, h1, h2, h3, hd, Except.isOk, Except.toBool]

set_option maxRecDepth 40000 in
/-- C4 (counterexample): for the valid private key `d = 1` (whose public
point has even y, so the sign-normalized scalar is `1`), the base nonce
input computed by `signSchnorr` — which always passes the 32-byte zero
buffer as auxiliary data — differs from the normalized private scalar: the
XOR mask `taggedHash('BIP0340/aux', 0^32)` is applied even though no
auxiliary randomness was supplied. -/
theorem signSchnorr_base_nonce_counterexample :
    schnorrBaseNonce (signNormalizedScalar (fromBytes (natToBytes32 1)))
        (List.replicate 32 0) ≠
      signNormalizedScalar (fromBytes (natToBytes32 1)) := by decide

set_option maxRecDepth 40000 in
/-- C4 (amended): when no auxiliary randomness is supplied, `signSchnorr`
substitutes a 32-byte zero buffer, so the base nonce input is
`dd XOR taggedHash('BIP0340/aux', 0^32)` — never `dd` itself, for any
normalized scalar `dd`: the XOR masking is always applied. -/
theorem signSchnorr_always_applies_aux_mask :
    (∀ hash d : Bytes,
      signSchnorr hash d = __signSchnorr hash d (List.replicate 32 0)) ∧
    (∀ dd : Nat, schnorrBaseNonce dd (List.replicate 32 0) ≠ dd) := by
  constructor
  · intro hash d; rfl
  · intro dd h
    unfold schnorrBaseNonce at h
    have hm : fromBytes (taggedHash tagBIP0340Aux (List.replicate 32 0)) ≠ 0 := by
      decide
    apply hm
    have h2 : dd ^^^ (dd ^^^
        fromBytes (taggedHash tagBIP0340Aux (List.replicate 32 0))) =
        dd ^^^ dd := by rw [h]
    rw [← Nat.xor_assoc, Nat.xor_self, Nat.zero_xor] at h2
    exact h2

/-- C6 (counterexample): `removeAnnex` is not idempotent: on the stack
`[[1], [0x50], [0x50]]` the first application removes the last element, and
the second application removes another, because the new last element also
begins with the annex marker. -/
theorem removeAnnex_not_idempotent_counterexample :
    removeAnnex (removeAnnex [[1], [0x50], [0x50]]) ≠
      removeAnnex [[1], [0x50], [0x50]] := by decide

/-- C6 (amended): `removeAnnex` is idempotent on every witness stack except
those with at least three elements whose last two elements each begin with
the annex marker `0x50` (there the second application strips a second
element). -/
theorem removeAnnex_idempotent_outside_double_annex (s : List Bytes)
    (h : ¬ (3 ≤ s.length ∧ (s.getLast?.getD []).head? = some 0x50 ∧
            ((s.dropLast).getLast?.getD []).head? = some 0x50)) :
    removeAnnex (removeAnnex s) = removeAnnex s := by
  by_cases hc : 2 ≤ s.length ∧ (s.getLast?.getD []).head? = some 0x50
  · have h1 : removeAnnex s = s.dropLast := by
      unfold removeAnnex; rw [if_pos hc]
    rw [h1]
    unfold removeAnnex
    rw [if_neg]
    intro hcon
    have hlen3 : 3 ≤ s.length := by
      have hd := s.length_dropLast
      omega
    exact h ⟨hlen3, hc.2, hcon.2⟩
  · have h1 : removeAnnex s = s := by
      unfold removeAnnex; rw [if_neg hc]
    rw [h1, h1]

/-- C6 (witness): a concrete stack with an annex on which one removal is
enough — the amended idempotence applies. -/
theorem removeAnnex_idempotent_witness :
    removeAnnex (removeAnnex [[1], [0x50]]) = removeAnnex [[1], [0x50]] :=
  removeAnnex_idempotent_outside_double_annex [[1], [0x50]] (by decide)

/-- C8: public-key aggregation is order-independent — for any two
permutations of the same list of at least two distinct keys
`aggregateMuSigPubkeys` returns the same result (the in-place
`sort(Buffer.compare)` canonicalizes the order before any hashing) — and
with fewer than two keys the aggregation fails with the
'at least two pubkeys are required' assertion. -/
theorem aggregateMuSigPubkeys_order_independent :
    (∀ l₁ l₂ : List Bytes, 2 ≤ l₁.length → l₁.Nodup → List.Perm l₁ l₂ →
      aggregateMuSigPubkeys l₁ = aggregateMuSigPubkeys l₂) ∧
    (∀ l : List Bytes, l.length < 2 →
      aggregateMuSigPubkeys l = .error .atLeastTwoPubkeys) := by
  constructor
  · intro l₁ l₂ hlen _ hperm
    have hlen2 : l₂.length = l₁.length := (hperm.length_eq).symm
    unfold aggregateMuSigPubkeys aggregateMuSigPubkeysST
    rw [if_neg (by omega), if_neg (by omega)]
    simp only
    rw [sortBuffers_eq_of_perm hperm]
  · intro l hlen
    unfold aggregateMuSigPubkeys aggregateMuSigPubkeysST
    rw [if_pos (by omega)]

/-- C10: `aggregateMuSigPubkeys` sorts its argument array in place: after
the call the caller's array holds a permutation of the original keys in
ascending lexicographic byte order (when the length assertion throws first,
the array is untouched — and trivially sorted, having at most one element);
in the state-passing embedding no other state is threaded. -/
theorem aggregateMuSigPubkeys_sorts_argument_in_place (l : List Bytes) :
    List.Perm (aggregateMuSigPubkeysST l).2 l ∧
    List.Sorted bufLe (aggregateMuSigPubkeysST l).2 := by
  unfold aggregateMuSigPubkeysST
  by_cases h : l.length ≤ 1
  · rw [if_pos h]
    refine ⟨List.Perm.refl l, ?_⟩
    match l, h with
    | [], _ => exact List.sorted_nil
    | [x], _ => exact List.sorted_singleton x
  · rw [if_neg h]
    exact ⟨sortBuffers_perm l, sortBuffers_sorted l⟩


/-- C3 (counterexample): `isValidTapscript` throws on a structurally
malformed witness stack instead of returning `false`: with a tapscript
element `[0x51]` and a 1-byte control block, the control-block length check
of the parser raises, and the error propagates out of the membership
test. -/
theorem isValidTapscript_throws_counterexample :
    isValidTapscript [[0x51], [0]] (natToBytes32 0) =
      .error .invalidControlBlockLength := by rfl

/-- C3 (amended): `isValidTapscript` does not catch parse failures: every
error of `parseTaprootWitness` propagates unchanged out of
`isValidTapscript`; the never-throwing boolean wrapper is
`isScriptPathSpend`, which reports parse failure as `false`. -/
theorem isValidTapscript_propagates_parse_errors (stack : List Bytes)
    (prog : Bytes) (e : JsErr) (h : parseTaprootWitness stack = .error e) :
    isValidTapscript stack prog = .error e := by
  unfold isValidTapscript
  rw [h]

/-- C3 (witness): on the concrete stack `[[], [0]]` the parser fails with
'tapscript is not a valid script', and `isValidTapscript` surfaces exactly
that error. -/
theorem isValidTapscript_propagates_witness :
    isValidTapscript [[], [0]] (natToBytes32 0) = .error .tapscriptInvalid :=
  isValidTapscript_propagates_parse_errors [[], [0]] (natToBytes32 0)
    .tapscriptInvalid (by rfl)

/-- Helper: `bubbleUp` preserves the heap's length. -/
theorem bubbleUp_length (cmp : WeightedTapScript → WeightedTapScript → Bool) :
    ∀ (fuel : Nat) (heap : List WeightedTapScript) (i : Nat)
      (v : WeightedTapScript),
      (bubbleUp cmp fuel heap i v).length = heap.length := by
  intro fuel
  induction fuel with
  | zero => intro heap i v; simp [bubbleUp]
  | succ n ih =>
    intro heap i v
    unfold bubbleUp
    dsimp only
    split_ifs with h1 h2
    · simp
    · rw [ih]; simp
    · simp

/-- Helper: `heapAdd` grows the heap by one. -/
theorem heapAdd_length (cmp : WeightedTapScript → WeightedTapScript → Bool)
    (heap : List WeightedTapScript) (v : WeightedTapScript) :
    (heapAdd cmp heap v).length = heap.length + 1 := by
  unfold heapAdd
  rw [bubbleUp_length]
  simp

/-- Helper: `sinkDown` preserves the heap's length. -/
theorem sinkDown_length (cmp : WeightedTapScript → WeightedTapScript → Bool) :
    ∀ (fuel : Nat) (heap : List WeightedTapScript) (i : Nat)
      (v : WeightedTapScript),
      (sinkDown cmp fuel heap i v).length = heap.length := by
  intro fuel
  induction fuel with
  | zero => intro heap i v; simp [sinkDown]
  | succ n ih =>
    intro heap i v
    unfold sinkDown
    dsimp only
    split_ifs <;> simp [ih]

/-- Helper: the root returned by `heapPoll` on a non-empty heap. -/
theorem heapPoll_fst (cmp : WeightedTapScript → WeightedTapScript → Bool)
    (x : WeightedTapScript) (xs : List WeightedTapScript) :
    (heapPoll cmp (x :: xs)).1 = some x := by
  unfold heapPoll
  dsimp only
  split_ifs <;> rfl

/-- Helper: `heapPoll` shrinks a non-empty heap by one. -/
theorem heapPoll_snd_length (cmp : WeightedTapScript → WeightedTapScript → Bool)
    (heap : List WeightedTapScript) (h : heap ≠ []) :
    (heapPoll cmp heap).2.length = heap.length - 1 := by
  match heap, h with
  | x :: xs, _ =>
    unfold heapPoll
    dsimp only
    by_cases h2 : 0 < xs.length
    · rw [if_pos h2]
      dsimp only
      rw [sinkDown_length]
      simp [List.length_take]
    · rw [if_neg h2]
      simp at h2
      simp [h2]

/-- Helper: one Huffman loop iteration shrinks the queue by one. -/
theorem huffStep_length (cmp : WeightedTapScript → WeightedTapScript → Bool)
    (heap : List WeightedTapScript) (h : 2 ≤ heap.length) :
    (huffStep cmp heap).length = heap.length - 1 := by
  match heap, h with
  | x :: xs, h =>
    have hxs : xs ≠ [] := by
      intro he; subst he; simp at h
    unfold huffStep
    rcases hp : heapPoll cmp (x :: xs) with ⟨o1, h1⟩
    have ho1 : o1 = some x := by
      have hf := heapPoll_fst cmp x xs
      rw [hp] at hf
      exact hf
    subst ho1
    have hh1len : h1.length = xs.length := by
      have hl := heapPoll_snd_length cmp (x :: xs) (by simp)
      rw [hp] at hl
      simpa using hl
    have hh1ne : h1 ≠ [] := by
      intro he
      rw [he] at hh1len
      simp at hh1len
      exact hxs (List.eq_nil_of_length_eq_zero hh1len.symm)
    match h1, hh1ne with
    | y :: ys, _ =>
      rcases hp2 : heapPoll cmp (y :: ys) with ⟨o2, h2⟩
      have ho2 : o2 = some y := by
        have hf := heapPoll_fst cmp y ys
        rw [hp2] at hf
        exact hf
      subst ho2
      have hh2len : h2.length = ys.length := by
        have hl := heapPoll_snd_length cmp (y :: ys) (by simp)
        rw [hp2] at hl
        simpa using hl
      dsimp only
      rw [hp2]
      dsimp only
      rw [heapAdd_length]
      simp only [List.length_cons] at hh1len ⊢
      omega

/-- Helper: the Huffman loop reduces any non-empty queue to exactly one
entry, given fuel at least the queue's size minus one. -/
theorem huffLoop_length (cmp : WeightedTapScript → WeightedTapScript → Bool) :
    ∀ (fuel : Nat) (heap : List WeightedTapScript), 1 ≤ heap.length →
      heap.length ≤ fuel + 1 → (huffLoop cmp fuel heap).length = 1 := by
  intro fuel
  induction fuel with
  | zero =>
    intro heap h1 h2
    unfold huffLoop
    omega
  | succ n ih =>
    intro heap h1 h2
    unfold huffLoop
    by_cases hl : 1 < heap.length
    · rw [if_pos hl]
      have hs := huffStep_length cmp heap (by omega)
      exact ih (huffStep cmp heap) (by omega) (by omega)
    · rw [if_neg hl]
      omega

/-- Helper: a successful `buildQueue` yields one entry per script. -/
theorem buildQueue_length (weights : List (Option Int)) :
    ∀ (scripts : List Bytes) (idx : Nat) (heap h' : List WeightedTapScript),
      buildQueue weights scripts idx heap = .ok h' →
      h'.length = heap.length + scripts.length := by
  intro scripts
  induction scripts with
  | nil =>
    intro idx heap h' h
    unfold buildQueue at h
    cases h
    simp
  | cons script rest ih =>
    intro idx heap h' h
    unfold buildQueue at h
    dsimp only at h
    split_ifs at h
    have hr := ih (idx + 1) _ h' h
    rw [hr, heapAdd_length]
    simp
    omega

/-- Helper: `buildQueue` succeeds exactly when no script at or after the
start index carries an explicitly supplied negative weight. -/
theorem buildQueue_isOk_iff (weights : List (Option Int)) :
    ∀ (scripts : List Bytes) (idx : Nat) (heap : List WeightedTapScript),
      (buildQueue weights scripts idx heap).isOk = true ↔
        ∀ i, i < scripts.length →
          ∀ w : Int, weights.getD (idx + i) none = some w → 0 ≤ w := by
  intro scripts
  induction scripts with
  | nil =>
    intro idx heap
    unfold buildQueue
    simp [Except.isOk, Except.toBool]
  | cons script rest ih =>
    intro idx heap
    unfold buildQueue
    dsimp only
    rcases hw : weights.getD idx none with _ | w
    · -- unspecified weight: defaults to 1, never fails here
      dsimp only
      rw [if_neg (by norm_num)]
      rw [ih]
      constructor
      · intro hall i hi w2 hw2
        cases i with
        | zero =>
          rw [Nat.add_zero, hw] at hw2
          cases hw2
        | succ j =>
          have hj : j < rest.length := by
            simp only [List.length_cons] at hi
            omega
          have harg : weights.getD (idx + 1 + j) none = some w2 := by
            have e : idx + 1 + j = idx + (j + 1) := by omega
            rw [e]
            exact hw2
          exact hall j hj w2 harg
      · intro hall i hi w2 hw2
        have harg : weights.getD (idx + (i + 1)) none = some w2 := by
          have e : idx + (i + 1) = idx + 1 + i := by omega
          rw [e]
          exact hw2
        exact hall (i + 1) (by simp only [List.length_cons]; omega) w2 harg
    · dsimp only
      by_cases hw0 : w = 0
      · -- supplied weight 0: `w || 1` is falsy, weight becomes 1
        subst hw0
        rw [if_neg (by norm_num)]
        rw [ih]
        constructor
        · intro hall i hi w2 hw2
          cases i with
          | zero =>
            rw [Nat.add_zero, hw] at hw2
            cases hw2
            omega
          | succ j =>
            have hj : j < rest.length := by
              simp only [List.length_cons] at hi
              omega
            have harg : weights.getD (idx + 1 + j) none = some w2 := by
              have e : idx + 1 + j = idx + (j + 1) := by omega
              rw [e]
              exact hw2
            exact hall j hj w2 harg
        · intro hall i hi w2 hw2
          have harg : weights.getD (idx + (i + 1)) none = some w2 := by
            have e : idx + (i + 1) = idx + 1 + i := by omega
            rw [e]
            exact hw2
          exact hall (i + 1) (by simp only [List.length_cons]; omega) w2 harg
      · rw [if_neg hw0]
        by_cases hneg : w ≤ 0
        · rw [if_pos hneg]
          simp only [Except.isOk, Except.toBool]
          constructor
          · intro hfalse
            cases hfalse
          · intro hall
            exfalso
            have hz := hall 0 (by simp) w (by rw [Nat.add_zero]; exact hw)
            omega
        · rw [if_neg hneg]
          rw [ih]
          constructor
          · intro hall i hi w2 hw2
            cases i with
            | zero =>
              rw [Nat.add_zero, hw] at hw2
              cases hw2
              omega
            | succ j =>
              have hj : j < rest.length := by
                simp only [List.length_cons] at hi
                omega
              have harg : weights.getD (idx + 1 + j) none = some w2 := by
                have e : idx + 1 + j = idx + (j + 1) := by omega
                rw [e]
                exact hw2
              exact hall j hj w2 harg
          · intro hall i hi w2 hw2
            have harg : weights.getD (idx + (i + 1)) none = some w2 := by
              have e : idx + (i + 1) = idx + 1 + i := by omega
              rw [e]
              exact hw2
            exact hall (i + 1) (by simp only [List.length_cons]; omega) w2 harg

set_option maxRecDepth 40000 in
/-- C5 (counterexample): a supplied weight of exactly `0` does not make the
Huffman builder fail: `weights[index] || 1` treats `0` as falsy and
defaults it to `1`, so `getHuffmanTaptree([script], [0])` succeeds. -/
theorem getHuffmanTaptree_zero_weight_counterexample :
    (getHuffmanTaptree [[0x51]] [some 0]).isOk = true := by rfl

/-- C5 (amended): `getHuffmanTaptree` succeeds exactly when at least one
script is given and no explicitly supplied weight is negative; a supplied
weight of `0` (like an unspecified one) is falsy under `weights[index] || 1`
and silently defaults to `1` rather than failing. -/

theorem getHuffmanTaptree_error_iff (scripts : List Bytes)
    (weights : List (Option Int)) :
    (getHuffmanTaptree scripts weights).isOk = true ↔
      (scripts ≠ [] ∧ ∀ i, i < scripts.length →
        ∀ w : Int, weights.getD i none = some w → 0 ≤ w) := by
  unfold getHuffmanTaptree
  by_cases hs : scripts.length = 0
  · rw [if_pos hs]
    simp only [Except.isOk, Except.toBool]
    constructor
    · intro hfalse; cases hfalse
    · intro hand
      exact absurd (List.eq_nil_of_length_eq_zero hs) hand.1
  · rw [if_neg hs]
    rcases hbq : buildQueue weights scripts 0 [] with e | queue
    · -- buildQueue failed: some weight is negative
      simp only [Except.isOk, Except.toBool]
      constructor
      · intro hfalse; cases hfalse
      · intro hand
        have := (buildQueue_isOk_iff weights scripts 0 []).mpr
          (by intro i hi w hw; exact hand.2 i hi w (by simpa using hw))
        rw [hbq] at this
        simp [Except.isOk, Except.toBool] at this
    · -- buildQueue succeeded: the loop reduces to one entry and polls it
      have hql : queue.length = scripts.length := by
        have := buildQueue_length weights scripts 0 [] queue hbq
        simpa using this
      have hfinal : (huffLoop huffCmp queue.length queue).length = 1 := by
        apply huffLoop_length huffCmp queue.length queue (by omega) (by omega)
      have hok : ∀ i, i < scripts.length →
          ∀ w : Int, weights.getD i none = some w → 0 ≤ w := by
        intro i hi w hw
        have := (buildQueue_isOk_iff weights scripts 0 []).mp
          (by rw [hbq]; rfl) i hi w
        exact this (by simpa using hw)
      match hfq : huffLoop huffCmp queue.length queue, hfinal with
      | [root], _ =>
        dsimp only
        rw [hfq]
        have hpoll : heapPoll huffCmp [root] = (some root, []) := by
          unfold heapPoll
          dsimp only
          rw [if_neg (by simp)]
        rw [hpoll]
        dsimp only
        simp only [Except.isOk, Except.toBool]
        constructor
        · intro _
          exact ⟨fun he => hs (by rw [he]; rfl), hok⟩
        · intro _
          trivial

set_option maxRecDepth 100000 in
/-- C7 (code bug evaluated): feeding p2ns's own derived output for three
valid distinct pubkeys back into a fresh p2ns Payment with validation on
does not return the pubkeys — it throws `TypeError('Output is invalid')`,
because the validation block requires the first decompiled chunk to be a
number while a p2ns output starts with a pubkey push. -/
theorem p2ns_roundtrip_output_invalid :
    c7Roundtrip = .error .outputInvalid := by rfl


/-- C9: with `n` known from supplied pubkeys and validation on, p2ns rejects
a signatures list shorter than `n` with 'Not enough signatures provided' and
one longer than `n` with 'Too many signatures provided'; exactly `n`
acceptable signatures construct the Payment without error. -/
theorem p2ns_signature_count (pks : List Bytes) (sigs : List Chunk)
    (h1 : pks.all eccIsPoint = true)
    (h2 : sigs.all (isAcceptableSignature defaultOpts) = true) :
    (sigs.length < pks.length →
      p2ns { pubkeys := some pks, signatures := some sigs } defaultOpts =
        .error .notEnoughSignatures) ∧
    (pks.length < sigs.length →
      p2ns { pubkeys := some pks, signatures := some sigs } defaultOpts =
        .error .tooManySignatures) ∧
    (sigs.length = pks.length →
      (p2ns { pubkeys := some pks, signatures := some sigs }
          defaultOpts).isOk = true) := by
  have hnv : p2nsNVal { pubkeys := some pks, signatures := some sigs } =
      some pks.length := by rfl
  refine ⟨?_, ?_, ?_⟩ <;> intro hlen <;>
    unfold p2ns <;>
    rw [if_neg (by simp)] <;>
    rw [if_neg (by simp [typeforcePubkeysOk, h1])] <;>
    rw [if_neg (by simp [typeforceSignaturesOk, h2])]
  · have hv : p2nsValidate { pubkeys := some pks, signatures := some sigs }
        defaultOpts = .error .notEnoughSignatures := by
      unfold p2nsValidate
      rw [hnv]
      dsimp only
      rw [if_pos hlen]
      rfl
    rw [show (if defaultOpts.validate then
        p2nsValidate { pubkeys := some pks, signatures := some sigs }
          defaultOpts else .ok ()) =
        p2nsValidate { pubkeys := some pks, signatures := some sigs }
          defaultOpts from rfl]
    rw [hv]
  · have hv : p2nsValidate { pubkeys := some pks, signatures := some sigs }
        defaultOpts = .error .tooManySignatures := by
      unfold p2nsValidate
      rw [hnv]
      dsimp only
      rw [if_neg (by omega), if_pos hlen]
      rfl
    rw [show (if defaultOpts.validate then
        p2nsValidate { pubkeys := some pks, signatures := some sigs }
          defaultOpts else .ok ()) =
        p2nsValidate { pubkeys := some pks, signatures := some sigs }
          defaultOpts from rfl]
    rw [hv]
  · have hv : p2nsValidate { pubkeys := some pks, signatures := some sigs }
        defaultOpts = .ok () := by
      unfold p2nsValidate
      rw [hnv]
      dsimp only
      rw [if_neg (by omega), if_neg (by omega)]
      rfl
    rw [show (if defaultOpts.validate then
        p2nsValidate { pubkeys := some pks, signatures := some sigs }
          defaultOpts else .ok ()) =
        p2nsValidate { pubkeys := some pks, signatures := some sigs }
          defaultOpts from rfl]
    rw [hv]
    rfl

set_option maxRecDepth 100000 in
/-- C9 (witness): with the three concrete pubkeys `G`, `2G`, `3G` and
64-byte signatures, two signatures fail with 'Not enough signatures
provided', four fail with 'Too many signatures provided', and three are
accepted. -/
theorem p2ns_signature_count_witness :
    p2ns { pubkeys := some [pubkeyG1, pubkeyG2, pubkeyG3],
           signatures := some [Chunk.data (List.replicate 64 1),
                               Chunk.data (List.replicate 64 2)] }
        defaultOpts = .error .notEnoughSignatures ∧
    p2ns { pubkeys := some [pubkeyG1, pubkeyG2, pubkeyG3],
           signatures := some (List.replicate 4
             (Chunk.data (List.replicate 64 1))) }
        defaultOpts = .error .tooManySignatures ∧
    (p2ns { pubkeys := some [pubkeyG1, pubkeyG2, pubkeyG3],
            signatures := some (List.replicate 3
              (Chunk.data (List.replicate 64 1))) }
        defaultOpts).isOk = true :=
  ⟨(p2ns_signature_count _ _ (by decide) (by decide)).1 (by decide),
   (p2ns_signature_count _ _ (by decide) (by decide)).2.1 (by decide),
   (p2ns_signature_count _ _ (by decide) (by decide)).2.2 (by decide)⟩


